import Mathlib

/-!
Shallow embedding of src/dict_utilities.py.

The modelled Python value universe: strings, integers, booleans, None,
byte strings, dates (datetime.date / datetime.datetime collapsed to an
opaque tag), UUIDs (opaque tag), lists, tuples, dicts (ordered entry
lists), and attribute-bearing objects in the style of the repository's
Bunch class.  Floats are outside the modelled universe.  Attribute
lookup on built-in container values is modelled as always failing, as
Python does for every name that is not a built-in method name; built-in
method attributes are outside the modelled universe.
-/

/-- The Python exception kinds the embedding distinguishes.  The last two
cannot be raised by any operation `getpath` performs on the modelled
universe, but exist so that "caught" is a real restriction. -/
inductive PyError where
  | keyError
  | indexError
  | typeError
  | attributeError
  | valueError
  | unicodeDecodeError
  | overflowError
deriving DecidableEq, Repr

/-- The exception classes caught by the outer except clause of `getpath`
(`KeyError, IndexError, TypeError, AttributeError, ValueError`). -/
def caught : PyError → Bool
  | .keyError => true
  | .indexError => true
  | .typeError => true
  | .attributeError => true
  | .valueError => true
  | .unicodeDecodeError => false
  | .overflowError => false

/-- Python values of the modelled universe. -/
inductive Value where
  | str : String → Value
  | int : Int → Value
  | bool : Bool → Value
  | none : Value
  | bytes : List Nat → Value
  | date : Nat → Value
  | uuid : Nat → Value
  | list : List Value → Value
  | tuple : List Value → Value
  | dict : List (Value × Value) → Value
  | bunch : List (String × Value) → Value

namespace Value

/-- `obj is None`, the identity test `getpath` uses for its break. -/
def isNone : Value → Bool
  | .none => true
  | _ => false

mutual

/-- Python hashability: lists and dicts are unhashable, a tuple is
hashable when all of its elements are, every other modelled value
(including Bunch, which defines a hash) is hashable. -/
def hashable : Value → Bool
  | .list _ => false
  | .dict _ => false
  | .tuple xs => hashableList xs
  | _ => true

/-- Hashability of every element of a list. -/
def hashableList : List Value → Bool
  | [] => true
  | x :: xs => hashable x && hashableList xs

end

mutual

/-- Python equality on the modelled universe.  `True == 1` and
`False == 0` hold because bool is a subclass of int; byte strings never
equal text strings; sequences compare elementwise.  Dict equality is
modelled on the ordered entry lists. -/
def pyEq : Value → Value → Bool
  | .str a, .str b => a == b
  | .int a, .int b => a == b
  | .bool a, .bool b => a == b
  | .int a, .bool b => a == (if b then (1 : Int) else 0)
  | .bool a, .int b => (if a then (1 : Int) else 0) == b
  | .none, .none => true
  | .bytes a, .bytes b => a == b
  | .date a, .date b => a == b
  | .uuid a, .uuid b => a == b
  | .list a, .list b => pyEqList a b
  | .tuple a, .tuple b => pyEqList a b
  | .dict a, .dict b => pyEqEntries a b
  | .bunch a, .bunch b => pyEqFields a b
  | _, _ => false
termination_by structural a _ => a

/-- Elementwise Python equality on sequences. -/
def pyEqList : List Value → List Value → Bool
  | [], [] => true
  | a :: as_, b :: bs => pyEq a b && pyEqList as_ bs
  | _, _ => false
termination_by structural a _ => a

/-- Entrywise Python equality on ordered dict entries. -/
def pyEqEntries : List (Value × Value) → List (Value × Value) → Bool
  | [], [] => true
  | (k, v) :: as_, (k2, v2) :: bs => pyEq k k2 && pyEq v v2 && pyEqEntries as_ bs
  | _, _ => false
termination_by structural a _ => a

/-- Fieldwise Python equality on Bunch attribute dictionaries. -/
def pyEqFields : List (String × Value) → List (String × Value) → Bool
  | [], [] => true
  | (k, v) :: as_, (k2, v2) :: bs => k == k2 && pyEq v v2 && pyEqFields as_ bs
  | _, _ => false
termination_by structural a _ => a

end

/-- Python truthiness of the modelled values: empty containers, the
empty string, zero, `False` and `None` are falsy; everything else is
truthy. -/
def truthy : Value → Bool
  | .str s => s != ""
  | .int n => n != 0
  | .bool b => b
  | .none => false
  | .bytes bs => !bs.isEmpty
  | .list xs => !xs.isEmpty
  | .tuple xs => !xs.isEmpty
  | .dict es => !es.isEmpty
  | .date _ => true
  | .uuid _ => true
  | .bunch _ => true

end Value

/-! ## Path parsing (`_split_and_trim`, `parse_path`) -/

/-- Membership in `PATH_DELIMITERS = [",", ".", "[", "]"]`. -/
def isDelim (c : Char) : Bool := c == ',' || c == '.' || c == '[' || c == ']'

/-- Split a character list at every delimiter, keeping empty segments
(the behaviour of `re.split` before filtering). -/
def splitChars : List Char → List Char → List (List Char)
  | [], acc => [acc.reverse]
  | c :: cs, acc =>
    if isDelim c then acc.reverse :: splitChars cs [] else splitChars cs (c :: acc)

/-- `_split_and_trim(string, *PATH_DELIMITERS)`: split on the delimiter
set and drop the empty pieces (`filter(None, ...)`). -/
def splitAndTrim (s : String) : List String :=
  ((splitChars s.toList []).map (fun cs => String.mk cs)).filter (fun t => t != "")

/-- One element of the `parse_path` loop body: a string element is
re-split on the delimiter set; any other element is yielded unchanged. -/
def expandToken : Value → List Value
  | .str s => (splitAndTrim s).map Value.str
  | v => [v]

/-- `parse_path(path)`.  A string path is first split by
`_split_and_trim`; then the loop iterates the resulting sequence.  A
non-string path is iterated directly: lists and tuples yield their
elements, dicts yield their keys, byte strings yield their bytes as
integers.  Iterating a non-iterable path raises `TypeError` (this
happens lazily, at the first `next()` inside `getpath`'s loop, outside
any try block). -/
def parse_path (path : Value) : Except PyError (List Value) :=
  match path with
  | .str s => .ok (((splitAndTrim s).map Value.str).flatMap expandToken)
  | .list xs => .ok (xs.flatMap expandToken)
  | .tuple xs => .ok (xs.flatMap expandToken)
  | .dict es => .ok ((es.map Prod.fst).flatMap expandToken)
  | .bytes bs => .ok ((bs.map (fun b => Value.int (Int.ofNat b))).flatMap expandToken)
  | _ => .error .typeError

/-- Paths whose iteration does not raise: exactly those `parse_path`
accepts. -/
def iterablePath : Value → Bool
  | .str _ => true
  | .list _ => true
  | .tuple _ => true
  | .dict _ => true
  | .bytes _ => true
  | _ => false

/-! ## The three access primitives used by `getpath`'s loop body -/

/-- Characters `int()` strips from both ends of a string. -/
def isSpaceChar (c : Char) : Bool := c == ' ' || c == '\t' || c == '\n' || c == '\r'

/-- Accumulate a decimal value; any non-digit character fails. -/
def goDigits : List Char → Nat → Option Nat
  | [], acc => some acc
  | c :: cs, acc =>
    if c.isDigit then goDigits cs (10 * acc + (c.toNat - 48)) else Option.none

/-- A nonempty all-digit character list, as a number. -/
def pyNatOfDigits (cs : List Char) : Option Nat :=
  if cs.isEmpty then Option.none else goDigits cs 0

/-- Python `int()` applied to text: strip surrounding whitespace, allow
one sign, then require nonempty digits. -/
def pyIntOfChars (cs : List Char) : Option Int :=
  let cs2 := ((cs.dropWhile isSpaceChar).reverse.dropWhile isSpaceChar).reverse
  match cs2 with
  | '+' :: rest => (pyNatOfDigits rest).map Int.ofNat
  | '-' :: rest => (pyNatOfDigits rest).map (fun n => -(Int.ofNat n))
  | rest => (pyNatOfDigits rest).map Int.ofNat

/-- Python `int(key)`: integers pass through, booleans become 0/1, text
and byte strings are parsed (`ValueError` on bad digits), every other
modelled value raises `TypeError`. -/
def pyToInt : Value → Except PyError Int
  | .int n => .ok n
  | .bool b => .ok (if b then 1 else 0)
  | .str s =>
    match pyIntOfChars s.toList with
    | some n => .ok n
    | _ => .error .valueError
  | .bytes bs =>
    match pyIntOfChars (bs.map Char.ofNat) with
    | some n => .ok n
    | _ => .error .valueError
  | _ => .error .typeError

/-- `getattr(obj, key)`: a non-string key raises `TypeError`; on a
Bunch-style object a string key resolves through its attribute
dictionary, else `AttributeError`.  On the built-in container and
scalar values every modelled name raises `AttributeError` (built-in
method names are outside the modelled universe). -/
def pyGetattr (obj key : Value) : Except PyError Value :=
  match key with
  | .str name =>
    match obj with
    | .bunch fs =>
      match fs.find? (fun f => f.1 == name) with
      | some f => .ok f.2
      | _ => .error .attributeError
    | _ => .error .attributeError
  | _ => .error .typeError

/-- Python sequence indexing with negative-index support. -/
def seqIdx {a : Type} (xs : List a) (i : Int) : Option a :=
  if 0 ≤ i then xs.get? i.toNat
  else if 0 ≤ i + xs.length then xs.get? (i + xs.length).toNat
  else Option.none

/-- `obj[key]` on the modelled universe.  Dicts require a hashable key
(`TypeError` otherwise) and raise `KeyError` when absent; lists, tuples,
strings and byte strings accept integer (or boolean, since bool is a
subclass of int) indices, raising `IndexError` out of range and
`TypeError` for any other key type; all remaining values are not
subscriptable (`TypeError`). -/
def pyGetitem (obj key : Value) : Except PyError Value :=
  match obj with
  | .dict es =>
    if Value.hashable key then
      match es.find? (fun kv => Value.pyEq kv.1 key) with
      | some kv => .ok kv.2
      | _ => .error .keyError
    else .error .typeError
  | .list xs =>
    match key with
    | .int n => match seqIdx xs n with | some v => .ok v | _ => .error .indexError
    | .bool b => match seqIdx xs (if b then 1 else 0) with | some v => .ok v | _ => .error .indexError
    | _ => .error .typeError
  | .tuple xs =>
    match key with
    | .int n => match seqIdx xs n with | some v => .ok v | _ => .error .indexError
    | .bool b => match seqIdx xs (if b then 1 else 0) with | some v => .ok v | _ => .error .indexError
    | _ => .error .typeError
  | .str s =>
    match key with
    | .int n => match seqIdx s.toList n with | some c => .ok (.str (String.mk [c])) | _ => .error .indexError
    | .bool b => match seqIdx s.toList (if b then 1 else 0) with | some c => .ok (.str (String.mk [c])) | _ => .error .indexError
    | _ => .error .typeError
  | .bytes bs =>
    match key with
    | .int n => match seqIdx bs n with | some b => .ok (.int (Int.ofNat b)) | _ => .error .indexError
    | .bool b => match seqIdx bs (if b then 1 else 0) with | some v => .ok (.int (Int.ofNat v)) | _ => .error .indexError
    | _ => .error .typeError
  | _ => .error .typeError

/-! ## The resolver (`getpath`) -/

/-- The item level of `getpath`'s loop body: try `obj[key]`; if that
raises `TypeError`, coerce the key with `int()` and index again; other
exceptions stand. -/
def itemStep (obj key : Value) : Except PyError Value :=
  match pyGetitem obj key with
  | .ok v => .ok v
  | .error e2 =>
    if e2 = PyError.typeError then
      match pyToInt key with
      | .ok n => pyGetitem obj (.int n)
      | .error e3 => .error e3
    else .error e2

/-- The attribute level of the loop body's inner try: on
`AttributeError` or `TypeError` from `getattr`, fall through to
`itemStep`; any other attribute outcome stands. -/
def resolveStep (obj key : Value) : Except PyError Value :=
  match pyGetattr obj key with
  | .ok v => .ok v
  | .error e =>
    if e = PyError.attributeError || e = PyError.typeError then itemStep obj key
    else .error e

/-- The outer try of the loop body: the five caught exception classes
turn the step's failure into the default; any other exception
propagates. -/
def applyToken (obj key default : Value) : Except PyError Value :=
  match resolveStep obj key with
  | .ok v => .ok v
  | .error e => if caught e then .ok default else .error e

/-- The token loop of `getpath`: apply each token in turn and break as
soon as the current object `is None` (returning that `None`). -/
def walkExc : Value → List Value → Value → Except PyError Value
  | obj, [], _ => .ok obj
  | obj, k :: rest, default =>
    match applyToken obj k default with
    | .ok obj2 => if obj2.isNone then .ok Value.none else walkExc obj2 rest default
    | .error e => .error e

/-- `getpath(obj, path, default)`:  parse the path (a `TypeError` from
iterating a non-iterable path escapes, since the `for` statement is
outside the try blocks), then walk the tokens. -/
def getpath (obj path default : Value) : Except PyError Value :=
  match parse_path path with
  | .ok toks => walkExc obj toks default
  | .error e => .error e

/-! ## `recursive_primitive` -/

/-- `bytes.decode("ascii")`: succeeds exactly when every byte is below
128, otherwise `UnicodeDecodeError`. -/
def decodeAscii (bs : List Nat) : Except PyError String :=
  if bs.all (fun b => b < 128) then .ok (String.mk (bs.map Char.ofNat))
  else .error .unicodeDecodeError

mutual

/-- `recursive_primitive(i)`: text, integers (hence booleans), `None`,
dates and UUIDs pass through; byte strings are decoded to text;
mappings are rebuilt with the **values** recursively validated (the
comprehension `{k: recursive_primitive(v) for k, v in i.items()}` keeps
keys untouched); other iterables (lists, tuples) are materialized into
lists of recursively validated elements; anything else —
e.g. a Bunch-style object — raises `TypeError`. -/
def recursive_primitive : Value → Except PyError Value
  | .str s => .ok (.str s)
  | .int n => .ok (.int n)
  | .bool b => .ok (.bool b)
  | .none => .ok .none
  | .date d => .ok (.date d)
  | .uuid u => .ok (.uuid u)
  | .bytes bs => (decodeAscii bs).map Value.str
  | .dict es => (rpEntries es).map Value.dict
  | .list xs => (rpList xs).map Value.list
  | .tuple xs => (rpList xs).map Value.list
  | .bunch _ => .error .typeError
termination_by structural v => v

/-- The dict comprehension of `recursive_primitive`: values validated
in order, keys kept as they are, the first exception propagating. -/
def rpEntries : List (Value × Value) → Except PyError (List (Value × Value))
  | [] => .ok []
  | (k, v) :: rest =>
    match recursive_primitive v with
    | .ok v2 =>
      match rpEntries rest with
      | .ok rest2 => .ok ((k, v2) :: rest2)
      | .error e => .error e
    | .error e => .error e
termination_by structural a => a

/-- The list comprehension of `recursive_primitive` over an iterable. -/
def rpList : List Value → Except PyError (List Value)
  | [] => .ok []
  | x :: rest =>
    match recursive_primitive x with
    | .ok x2 =>
      match rpList rest with
      | .ok rest2 => .ok (x2 :: rest2)
      | .error e => .error e
    | .error e => .error e
termination_by structural a => a

end

/-! ## PII masking (`_recursive_mask_values`, `safe_mask_values`) -/

/-- Python membership `key in pii_keys` over the variadic key tuple. -/
def pyMem (k : Value) (keys : List Value) : Bool :=
  keys.any (fun p => Value.pyEq k p)

mutual

/-- `_recursive_mask_values(obj, *pii_keys)`: rebuild dicts, replacing
the value under every PII key with truthy value by `"X"` and recursing
elsewhere; rebuild lists as lists and tuples as tuples of recursively
masked elements; other values pass through as leaves. -/
def recursive_mask_values (obj : Value) (piiKeys : List Value) : Value :=
  match obj with
  | .dict es => .dict (maskEntries es piiKeys)
  | .list xs => .list (maskList xs piiKeys)
  | .tuple xs => .tuple (maskList xs piiKeys)
  | v => v
termination_by structural obj

/-- The dict comprehension of `_recursive_mask_values`. -/
def maskEntries : List (Value × Value) → List Value → List (Value × Value)
  | [], _ => []
  | (k, v) :: rest, piiKeys =>
    (k, if pyMem k piiKeys && Value.truthy v then .str "X"
        else recursive_mask_values v piiKeys) :: maskEntries rest piiKeys
termination_by structural a _ => a

/-- The list comprehension of `_recursive_mask_values`. -/
def maskList : List Value → List Value → List Value
  | [], _ => []
  | x :: rest, piiKeys => recursive_mask_values x piiKeys :: maskList rest piiKeys
termination_by structural a _ => a

end

mutual

/-- `copy.deepcopy` on the modelled tree-shaped values: a structurally
equal tree sharing no mutable nodes with the original. -/
def deepcopy : Value → Value
  | .list xs => .list (deepcopyList xs)
  | .tuple xs => .tuple (deepcopyList xs)
  | .dict es => .dict (deepcopyEntries es)
  | .bunch fs => .bunch (deepcopyFields fs)
  | v => v
termination_by structural v => v

/-- `deepcopy` of a list of values. -/
def deepcopyList : List Value → List Value
  | [] => []
  | x :: xs => deepcopy x :: deepcopyList xs
termination_by structural a => a

/-- `deepcopy` of dict entries. -/
def deepcopyEntries : List (Value × Value) → List (Value × Value)
  | [] => []
  | (k, v) :: rest => (deepcopy k, deepcopy v) :: deepcopyEntries rest
termination_by structural a => a

/-- `deepcopy` of Bunch attribute entries. -/
def deepcopyFields : List (String × Value) → List (String × Value)
  | [] => []
  | (k, v) :: rest => (k, deepcopy v) :: deepcopyFields rest
termination_by structural a => a

end

/-- `safe_mask_values(data, *pii_keys)`: deep-copy, then mask the copy,
so the caller's structure is never touched. -/
def safe_mask_values (data : Value) (piiKeys : List Value) : Value :=
  recursive_mask_values (deepcopy data) piiKeys

/-! ## Scoped temporary mutation (`push_keys`) -/

/-- `mapping.get(k)` as used to build the backup: `some` the stored
value, or `none` standing for the module's `missing` sentinel. -/
def dictGet (m : List (Value × Value)) (k : Value) : Option Value :=
  (m.find? (fun kv => Value.pyEq kv.1 k)).map Prod.snd

/-- `mapping[k] = v`: overwrite in place when the key exists, append
otherwise (Python dicts keep the insertion position of existing keys). -/
def dictSet : List (Value × Value) → Value → Value → List (Value × Value)
  | [], k, v => [(k, v)]
  | kv :: rest, k, v =>
    if Value.pyEq kv.1 k then (kv.1, v) :: rest else kv :: dictSet rest k v

/-- `del mapping[k]` (a no-op on an absent key; `push_keys` only
deletes keys it has just written). -/
def dictDel : List (Value × Value) → Value → List (Value × Value)
  | [], _ => []
  | kv :: rest, k => if Value.pyEq kv.1 k then rest else kv :: dictDel rest k

/-- `mapping.update(other)` entry by entry. -/
def dictUpdate (m : List (Value × Value)) (kvs : List (Value × Value)) :
    List (Value × Value) :=
  kvs.foldl (fun acc kv => dictSet acc kv.1 kv.2) m

/-- The `push_keys(mapping, **kwargs)` context manager, run around a
`body` which receives the overlaid mapping and reports whether it
raised.  Entry: back up each overridden key (`missing` → `Option.none`)
and overlay `kwargs`.  Normal exit: run the code after the `yield` —
`mapping.update(backup)` followed by deletion of the `missing`-marked
keys, modelled key by key since `**kwargs` keys are distinct.  Raising
exit: `contextlib.contextmanager` throws the exception into the
generator at the `yield`; the function body has no try/finally, so the
restore code never runs and the mapping stays exactly as the body left
it. -/
def push_keys_run (mapping kwargs : List (Value × Value))
    (body : List (Value × Value) → List (Value × Value) × Bool) :
    List (Value × Value) × Bool :=
  let backup := kwargs.map (fun kv => (kv.1, dictGet mapping kv.1))
  let r := body (dictUpdate mapping kwargs)
  if r.2 then (r.1, true)
  else
    (backup.foldl
      (fun acc kb =>
        match kb.2 with
        | some v => dictSet acc kb.1 v
        | _ => dictDel acc kb.1) r.1, false)

/-! ## Nested key search (`find_key_in_dict`, `key_in_dict`) -/

mutual

/-- `find_key_in_dict(node, key)`, materialized.  A list node searches
each item; a dict node yields the key once if present and then searches
every value; every other node yields nothing.  (The Python generator's
rebinding of `key` by its inner loops is harmless: every yielded
element is the searched key itself.) -/
def find_key_in_dict (node k : Value) : List Value :=
  match node with
  | .list xs => findInItems xs k
  | .dict es =>
    (if es.any (fun kv => Value.pyEq kv.1 k) then [k] else []) ++ findInValues es k
  | _ => []
termination_by structural node

/-- The search over the items of a list node. -/
def findInItems : List Value → Value → List Value
  | [], _ => []
  | x :: xs, k => find_key_in_dict x k ++ findInItems xs k
termination_by structural a _ => a

/-- The search over the values of a dict node. -/
def findInValues : List (Value × Value) → Value → List Value
  | [], _ => []
  | (_, v) :: rest, k => find_key_in_dict v k ++ findInValues rest k
termination_by structural a _ => a

end

/-- `key_in_dict(node, key)`:
`True if key in find_key_in_dict(node, key) else False`, i.e. Python
membership of the key among the yielded elements. -/
def key_in_dict (node k : Value) : Bool :=
  (find_key_in_dict node k).any (fun x => Value.pyEq x k)

/-! ## Analysis predicates (stated over the embedding, used by the
theorems below) -/

/-- Whether an `Except` outcome is either a success or an exception of
one of the five classes `getpath` catches. -/
def errCaught {a : Type} : Except PyError a → Bool
  | .ok _ => true
  | .error e => caught e

/-- Whether an `Except` outcome is a success or one of the two
exception classes (`AttributeError`, `TypeError`) on which the
resolver's attribute step falls through to item access. -/
def attrFallthrough : Except PyError Value → Bool
  | .ok _ => true
  | .error .attributeError => true
  | .error .typeError => true
  | .error _ => false

mutual

/-- Occurrence of `k` as a mapping key reachable by descending only
through list elements and dict values — the part of a structure
`find_key_in_dict` actually visits. -/
def occursViaListsAndDicts (node k : Value) : Bool :=
  match node with
  | .list xs => occursLDItems xs k
  | .dict es => es.any (fun kv => Value.pyEq kv.1 k) || occursLDValues es k
  | _ => false
termination_by structural node

/-- `occursViaListsAndDicts` over list items. -/
def occursLDItems : List Value → Value → Bool
  | [], _ => false
  | x :: xs, k => occursViaListsAndDicts x k || occursLDItems xs k
termination_by structural a _ => a

/-- `occursViaListsAndDicts` over dict values. -/
def occursLDValues : List (Value × Value) → Value → Bool
  | [], _ => false
  | (_, v) :: rest, k => occursViaListsAndDicts v k || occursLDValues rest k
termination_by structural a _ => a

end

mutual

/-- Occurrence of `k` as a mapping key anywhere in the structure,
descending through lists, tuples and dict values alike. -/
def occursInStructure (node k : Value) : Bool :=
  match node with
  | .list xs => occursItems xs k
  | .tuple xs => occursItems xs k
  | .dict es => es.any (fun kv => Value.pyEq kv.1 k) || occursVals es k
  | _ => false
termination_by structural node

/-- `occursInStructure` over sequence items. -/
def occursItems : List Value → Value → Bool
  | [], _ => false
  | x :: xs, k => occursInStructure x k || occursItems xs k
termination_by structural a _ => a

/-- `occursInStructure` over dict values. -/
def occursVals : List (Value × Value) → Value → Bool
  | [], _ => false
  | (_, v) :: rest, k => occursInStructure v k || occursVals rest k
termination_by structural a _ => a

end

mutual

/-- No dict entry anywhere in the structure pairs a PII key with a
truthy value, i.e. nothing for `_recursive_mask_values` to replace. -/
def maskUntouched (obj : Value) (piiKeys : List Value) : Bool :=
  match obj with
  | .dict es => untouchedEntries es piiKeys
  | .list xs => untouchedList xs piiKeys
  | .tuple xs => untouchedList xs piiKeys
  | _ => true
termination_by structural obj

/-- `maskUntouched` over dict entries. -/
def untouchedEntries : List (Value × Value) → List Value → Bool
  | [], _ => true
  | (k, v) :: rest, keys =>
    !(pyMem k keys && Value.truthy v) && maskUntouched v keys && untouchedEntries rest keys
termination_by structural a _ => a

/-- `maskUntouched` over sequence items. -/
def untouchedList : List Value → List Value → Bool
  | [], _ => true
  | x :: rest, keys => maskUntouched x keys && untouchedList rest keys
termination_by structural a _ => a

end

/-! ## Helper lemmas -/

/-- Structural induction for `Value` with membership-based hypotheses
for the nested lists, derived by strong induction on `sizeOf`. -/
theorem Value.inductionOn (P : Value → Prop)
    (hstr : ∀ s, P (.str s)) (hint : ∀ n, P (.int n)) (hbool : ∀ b, P (.bool b))
    (hnone : P .none) (hbytes : ∀ bs, P (.bytes bs)) (hdate : ∀ n, P (.date n))
    (huuid : ∀ n, P (.uuid n))
    (hlist : ∀ xs, (∀ x ∈ xs, P x) → P (.list xs))
    (htuple : ∀ xs, (∀ x ∈ xs, P x) → P (.tuple xs))
    (hdict : ∀ es, (∀ kv ∈ es, P kv.1 ∧ P kv.2) → P (.dict es))
    (hbunch : ∀ fs, (∀ kv ∈ fs, P kv.2) → P (.bunch fs)) :
    ∀ v, P v := by
  have key : ∀ n (v : Value), sizeOf v ≤ n → P v := by
    intro n
    induction n with
    | zero =>
      intro v hv
      exfalso
      cases v <;> simp at hv
    | succ n ih =>
      intro v hv
      cases v with
      | str s => exact hstr s
      | int m => exact hint m
      | bool b => exact hbool b
      | none => exact hnone
      | bytes bs => exact hbytes bs
      | date d => exact hdate d
      | uuid u => exact huuid u
      | list xs =>
        apply hlist
        intro x hx
        apply ih
        have h1 := List.sizeOf_lt_of_mem hx
        simp at hv
        omega
      | tuple xs =>
        apply htuple
        intro x hx
        apply ih
        have h1 := List.sizeOf_lt_of_mem hx
        simp at hv
        omega
      | dict es =>
        apply hdict
        intro kv hkv
        have h1 := List.sizeOf_lt_of_mem hkv
        have h2 : sizeOf kv.1 < sizeOf kv ∧ sizeOf kv.2 < sizeOf kv := by
          obtain ⟨a, b⟩ := kv
          simp only [Prod.mk.sizeOf_spec]
          omega
        simp at hv
        exact ⟨ih kv.1 (by omega), ih kv.2 (by omega)⟩
      | bunch fs =>
        apply hbunch
        intro kv hkv
        have h1 := List.sizeOf_lt_of_mem hkv
        have h2 : sizeOf kv.2 < sizeOf kv := by
          obtain ⟨a, b⟩ := kv
          simp only [Prod.mk.sizeOf_spec]
          omega
        simp at hv
        exact ih kv.2 (by omega)
  intro v
  exact key (sizeOf v) v (Nat.le_refl _)

/-- Elementwise reflexivity for `pyEqList`. -/
theorem Value.pyEqList_refl (xs : List Value) (h : ∀ x ∈ xs, Value.pyEq x x = true) :
    Value.pyEqList xs xs = true := by
  induction xs with
  | nil => rfl
  | cons a as_ ih =>
    simp only [Value.pyEqList, Bool.and_eq_true]
    exact ⟨h a (by simp), ih (fun x hx => h x (by simp [hx]))⟩

/-- Entrywise reflexivity for `pyEqEntries`. -/
theorem Value.pyEqEntries_refl (es : List (Value × Value))
    (h : ∀ kv ∈ es, Value.pyEq kv.1 kv.1 = true ∧ Value.pyEq kv.2 kv.2 = true) :
    Value.pyEqEntries es es = true := by
  induction es with
  | nil => rfl
  | cons a as_ ih =>
    obtain ⟨k, v⟩ := a
    simp only [Value.pyEqEntries, Bool.and_eq_true]
    refine ⟨⟨(h (k, v) (by simp)).1, (h (k, v) (by simp)).2⟩, ?_⟩
    exact ih (fun kv hkv => h kv (by simp [hkv]))

/-- Fieldwise reflexivity for `pyEqFields`. -/
theorem Value.pyEqFields_refl (fs : List (String × Value))
    (h : ∀ kv ∈ fs, Value.pyEq kv.2 kv.2 = true) :
    Value.pyEqFields fs fs = true := by
  induction fs with
  | nil => rfl
  | cons a as_ ih =>
    obtain ⟨k, v⟩ := a
    simp only [Value.pyEqFields, Bool.and_eq_true]
    exact ⟨⟨by simp, h (k, v) (by simp)⟩, ih (fun kv hkv => h kv (by simp [hkv]))⟩

/-- Python equality is reflexive on the modelled universe. -/
theorem Value.pyEq_refl : ∀ v : Value, Value.pyEq v v = true := by
  apply Value.inductionOn (fun v => Value.pyEq v v = true)
  · intro s; simp [Value.pyEq]
  · intro n; simp [Value.pyEq]
  · intro b; simp [Value.pyEq]
  · rfl
  · intro bs; simp [Value.pyEq]
  · intro n; simp [Value.pyEq]
  · intro n; simp [Value.pyEq]
  · intro xs h; simpa [Value.pyEq] using Value.pyEqList_refl xs h
  · intro xs h; simpa [Value.pyEq] using Value.pyEqList_refl xs h
  · intro es h; simpa [Value.pyEq] using Value.pyEqEntries_refl es h
  · intro fs h; simpa [Value.pyEq] using Value.pyEqFields_refl fs (fun kv hkv => (h kv hkv))

/-- `deepcopyList` is the identity on value lists built from copies. -/
theorem deepcopyList_eq (xs : List Value) (h : ∀ x ∈ xs, deepcopy x = x) :
    deepcopyList xs = xs := by
  induction xs with
  | nil => rfl
  | cons a as_ ih =>
    simp only [deepcopyList]
    rw [h a (by simp), ih (fun x hx => h x (by simp [hx]))]

/-- `deepcopyEntries` is the identity. -/
theorem deepcopyEntries_eq (es : List (Value × Value))
    (h : ∀ kv ∈ es, deepcopy kv.1 = kv.1 ∧ deepcopy kv.2 = kv.2) :
    deepcopyEntries es = es := by
  induction es with
  | nil => rfl
  | cons a as_ ih =>
    obtain ⟨k, v⟩ := a
    simp only [deepcopyEntries]
    rw [(h (k, v) (by simp)).1, (h (k, v) (by simp)).2,
      ih (fun kv hkv => h kv (by simp [hkv]))]

/-- `deepcopyFields` is the identity. -/
theorem deepcopyFields_eq (fs : List (String × Value))
    (h : ∀ kv ∈ fs, deepcopy kv.2 = kv.2) :
    deepcopyFields fs = fs := by
  induction fs with
  | nil => rfl
  | cons a as_ ih =>
    obtain ⟨k, v⟩ := a
    simp only [deepcopyFields]
    rw [h (k, v) (by simp), ih (fun kv hkv => h kv (by simp [hkv]))]

/-- `copy.deepcopy` returns a structurally equal value. -/
theorem deepcopy_eq : ∀ v : Value, deepcopy v = v := by
  apply Value.inductionOn (fun v => deepcopy v = v)
  · intro s; rfl
  · intro n; rfl
  · intro b; rfl
  · rfl
  · intro bs; rfl
  · intro n; rfl
  · intro n; rfl
  · intro xs h; simp only [deepcopy]; rw [deepcopyList_eq xs h]
  · intro xs h; simp only [deepcopy]; rw [deepcopyList_eq xs h]
  · intro es h; simp only [deepcopy]; rw [deepcopyEntries_eq es h]
  · intro fs h; simp only [deepcopy]; rw [deepcopyFields_eq fs h]
/-- The attribute step can only fail with `AttributeError` or
`TypeError`, the two classes on which the resolver falls through to
item access. -/
theorem pyGetattr_fallthrough (obj k : Value) : attrFallthrough (pyGetattr obj k) = true := by
  cases k <;> cases obj <;> simp only [pyGetattr] <;> try rfl
  all_goals (rename_i fs; cases fs.find? (fun f => f.1 == _) <;> rfl)

/-- Item access only fails with `TypeError`, `KeyError` or
`IndexError`, all of which `getpath` catches. -/
theorem pyGetitem_caught (obj k : Value) : errCaught (pyGetitem obj k) = true := by
  cases obj <;> cases k <;> simp only [pyGetitem] <;> try rfl
  all_goals first
    | (split <;> rfl)
    | (split
       · split <;> rfl
       · rfl)

/-- `int()` coercion of a key only fails with `TypeError` or
`ValueError`, both of which `getpath` catches. -/
theorem pyToInt_caught (k : Value) : errCaught (pyToInt k) = true := by
  cases k <;> simp only [pyToInt] <;> try rfl
  all_goals (split <;> rfl)
/-- The item level only fails with exceptions `getpath` catches. -/
theorem itemStep_caught (obj k : Value) : errCaught (itemStep obj k) = true := by
  unfold itemStep
  split
  · rfl
  · rename_i e2 hi
    have hic := pyGetitem_caught obj k
    rw [hi] at hic
    split
    · split
      · rename_i n hti
        exact pyGetitem_caught obj (.int n)
      · rename_i e3 hti
        have h3 := pyToInt_caught k
        rw [hti] at h3
        exact h3
    · exact hic

/-- Every exception the loop body's inner try can produce belongs to
one of the five classes the outer except catches. -/
theorem resolveStep_caught (obj k : Value) : errCaught (resolveStep obj k) = true := by
  unfold resolveStep
  split
  · rfl
  · rename_i e ha
    have hfall := pyGetattr_fallthrough obj k
    rw [ha] at hfall
    split
    · exact itemStep_caught obj k
    · rename_i hcond
      cases e <;> simp [attrFallthrough] at hfall <;> simp_all
/-- The loop body as a whole never lets an exception escape: with the
five classes caught and turned into the default, it always succeeds. -/
theorem applyToken_ok (obj k d : Value) : ∃ v, applyToken obj k d = .ok v := by
  unfold applyToken
  split
  · rename_i v hr
    exact ⟨v, rfl⟩
  · rename_i e hr
    have hc := resolveStep_caught obj k
    rw [hr] at hc
    simp only [errCaught] at hc
    exact ⟨d, by simp [hc]⟩

/-- The whole token walk always succeeds. -/
theorem walkExc_ok (toks : List Value) : ∀ obj d : Value, ∃ v, walkExc obj toks d = .ok v := by
  induction toks with
  | nil => intro obj d; exact ⟨obj, rfl⟩
  | cons k rest ih =>
    intro obj d
    obtain ⟨v, hv⟩ := applyToken_ok obj k d
    by_cases hn : v.isNone = true
    · exact ⟨Value.none, by simp [walkExc, hv, hn]⟩
    · obtain ⟨w, hw⟩ := ih v d
      exact ⟨w, by simp [walkExc, hv, hn, hw]⟩
/-! ## Claim theorems -/

/-- Counterexample to claim C1: on `S = {}`, `P = ['a', 'x']` and the
default `D = {'x': 42}`, the token `'a'` fails to resolve, yet
`getpath` returns `42`, not `D` — the walk continued and applied the
remaining token `'x'` inside the default. -/
theorem getpath_failed_token_default_not_returned_cex :
    getpath (.dict []) (.list [.str "a", .str "x"]) (.dict [(.str "x", .int 42)])
      = .ok (.int 42) ∧
    Value.int 42 ≠ Value.dict [(.str "x", .int 42)] :=
  ⟨rfl, fun h => nomatch h⟩

/-- Claim C1 (amended): when a token fails to resolve with one of the
caught exception classes, the current object becomes the default; the
walk stops (returning `None`) only when that default is `None`, and
otherwise continues, applying the remaining tokens to the default. -/
theorem getpath_failed_token_continues_into_default
    (obj k default : Value) (rest : List Value) (e : PyError)
    (hres : resolveStep obj k = .error e) (hc : caught e = true) :
    walkExc obj (k :: rest) default =
      if default.isNone then .ok Value.none else walkExc default rest default := by
  simp [walkExc, applyToken, hres, hc]

/-- Witness for C1's amended theorem at `S = {}`, `P = ['a', 'x']`,
`D = {'x': 42}`: the failing first token turns the object into the
default and the walk continues on the remaining token. -/
theorem getpath_failed_token_continues_into_default_witness :
    walkExc (.dict []) [.str "a", .str "x"] (.dict [(.str "x", .int 42)]) =
      if (Value.dict [(.str "x", .int 42)]).isNone then .ok Value.none
      else walkExc (.dict [(.str "x", .int 42)]) [.str "x"] (.dict [(.str "x", .int 42)]) :=
  getpath_failed_token_continues_into_default
    (.dict []) (.str "a") (.dict [(.str "x", .int 42)]) [.str "x"] .keyError rfl rfl

/-- Counterexample to claim C2: a non-iterable path — here the integer
`42` — makes `getpath` raise `TypeError`: iterating `parse_path`'s
generator happens in the `for` statement, outside every try block. -/
theorem getpath_raises_on_non_iterable_path_cex :
    getpath (.dict []) (.int 42) Value.none = .error .typeError := rfl

/-- Claim C2 (amended): for every structure, every default, and every
path that is iterable (a string, list, tuple, dict or byte string),
`getpath` never raises: each structural error is caught and converted
into the None-or-default outcome. -/
theorem getpath_never_raises_on_iterable_path (obj path default : Value)
    (h : iterablePath path = true) : ∃ v, getpath obj path default = .ok v := by
  unfold getpath
  cases path <;> simp [iterablePath] at h <;> exact walkExc_ok _ _ _

/-- Witness for C2's amended theorem at a concrete iterable path. -/
theorem getpath_never_raises_on_iterable_path_witness :
    iterablePath (.str "a.b") = true ∧
    ∃ v, getpath (.dict []) (.str "a.b") Value.none = .ok v :=
  ⟨rfl, getpath_never_raises_on_iterable_path (.dict []) (.str "a.b") Value.none rfl⟩

/-- Claim C3 (code-bug evidence): `push_keys` restores the mapping when
the body completes normally, but when the body raises, the code after
the `yield` is skipped (there is no try/finally), so the overridden
key keeps its override instead of being restored. -/
theorem push_keys_restores_only_on_normal_exit :
    push_keys_run [(.str "a", .int 1)] [(.str "a", .int 2)] (fun m => (m, false))
      = ([(.str "a", .int 1)], false) ∧
    push_keys_run [(.str "a", .int 1)] [(.str "a", .int 2)] (fun m => (m, true))
      = ([(.str "a", .int 2)], true) :=
  ⟨rfl, rfl⟩

/-- Counterexample to claim C4: on `S = {'a': {'b': {0: 'Y'}}}` the
string path `"a.b[0]"` parses its last token as the text `"0"`, misses
the integer key `0` and falls back to the default `None`, while the
pre-split path `['a', 'b', 0]` resolves to `'Y'`. -/
theorem getpath_string_vs_int_token_cex :
    getpath (.dict [(.str "a", .dict [(.str "b", .dict [(.int 0, .str "Y")])])])
        (.str "a.b[0]") Value.none
      ≠ getpath (.dict [(.str "a", .dict [(.str "b", .dict [(.int 0, .str "Y")])])])
        (.list [.str "a", .str "b", .int 0]) Value.none :=
  fun h => nomatch h

/-- Claim C4 (amended): a delimited string path is equivalent to the
pre-split sequence of its *string* tokens: for every structure and
default, `getpath(S, "a.b[0]")` equals `getpath(S, ["a", "b", "0"])`.
(An integer token `0` is not interchangeable with the text token `"0"`
when the object reached at that position is a mapping.) -/
theorem getpath_string_path_equals_presplit_string_tokens (S D : Value) :
    getpath S (.str "a.b[0]") D = getpath S (.list [.str "a", .str "b", .str "0"]) D := rfl

/-- Claim C6: when a token resolves successfully and the resolved value
is `None`, the walk terminates immediately with `None` as the final
result, regardless of the default, and the remaining tokens are never
applied. -/
theorem getpath_short_circuits_on_resolved_none
    (obj path default k : Value) (rest : List Value)
    (hp : parse_path path = .ok (k :: rest))
    (hs : resolveStep obj k = .ok Value.none) :
    getpath obj path default = .ok Value.none := by
  unfold getpath
  rw [hp]
  simp [walkExc, applyToken, hs, Value.isNone]

/-- Witness for C6 at `S = {'a': None}`, `P = ['a', 'b']`, `D = 7`:
the successfully resolved `None` ends the walk with `None`, not `7`. -/
theorem getpath_short_circuits_on_resolved_none_witness :
    getpath (.dict [(.str "a", Value.none)]) (.list [.str "a", .str "b"]) (.int 7)
      = .ok Value.none :=
  getpath_short_circuits_on_resolved_none
    (.dict [(.str "a", Value.none)]) (.list [.str "a", .str "b"]) (.int 7)
    (.str "a") [.str "b"] rfl rfl
/-- Every element the key search yields is the searched key itself. -/
theorem mem_find_key_eq (k : Value) :
    ∀ node : Value, ∀ y ∈ find_key_in_dict node k, y = k := by
  have hItems : ∀ (xs : List Value),
      (∀ x ∈ xs, ∀ y ∈ find_key_in_dict x k, y = k) →
      ∀ y ∈ findInItems xs k, y = k := by
    intro xs h
    induction xs with
    | nil => simp [findInItems]
    | cons a as_ ih =>
      intro y hy
      simp only [findInItems, List.mem_append] at hy
      rcases hy with h1 | h2
      · exact h a (by simp) y h1
      · exact ih (fun x hx => h x (by simp [hx])) y h2
  have hVals : ∀ (es : List (Value × Value)),
      (∀ kv ∈ es, ∀ y ∈ find_key_in_dict kv.2 k, y = k) →
      ∀ y ∈ findInValues es k, y = k := by
    intro es h
    induction es with
    | nil => simp [findInValues]
    | cons a as_ ih =>
      obtain ⟨k2, v⟩ := a
      intro y hy
      simp only [findInValues, List.mem_append] at hy
      rcases hy with h1 | h2
      · exact h (k2, v) (by simp) y h1
      · exact ih (fun kv hkv => h kv (by simp [hkv])) y h2
  apply Value.inductionOn (fun node => ∀ y ∈ find_key_in_dict node k, y = k)
  · intro s; simp [find_key_in_dict]
  · intro n; simp [find_key_in_dict]
  · intro b; simp [find_key_in_dict]
  · simp [find_key_in_dict]
  · intro bs; simp [find_key_in_dict]
  · intro n; simp [find_key_in_dict]
  · intro n; simp [find_key_in_dict]
  · intro xs h
    intro y hy
    simp only [find_key_in_dict] at hy
    exact hItems xs h y hy
  · intro xs h; simp [find_key_in_dict]
  · intro es h
    intro y hy
    simp only [find_key_in_dict, List.mem_append] at hy
    rcases hy with h1 | h2
    · split at h1
      · simp at h1; exact h1
      · simp at h1
    · exact hVals es (fun kv hkv => (h kv hkv).2) y h2
  · intro fs h; simp [find_key_in_dict]

/-- Claim C7: `key_in_dict(node, key)` is true precisely when
`find_key_in_dict(node, key)` yields at least one element.  (The
hashability hypothesis restricts the statement to keys Python can test
for dict membership without raising.) -/
theorem key_in_dict_iff_find_key_in_dict_nonempty (node k : Value)
    (hk : Value.hashable k = true) :
    key_in_dict node k = true ↔ find_key_in_dict node k ≠ [] := by
  unfold key_in_dict
  cases hf : find_key_in_dict node k with
  | nil => simp
  | cons y ys =>
    have hy : y = k := mem_find_key_eq k node y (by rw [hf]; simp)
    subst hy
    simp [Value.pyEq_refl]

/-- Witness for C7 at a dict that contains the key directly. -/
theorem key_in_dict_iff_find_key_in_dict_nonempty_witness :
    Value.hashable (.str "k") = true ∧
    (key_in_dict (.dict [(.str "k", .int 1)]) (.str "k") = true ↔
      find_key_in_dict (.dict [(.str "k", .int 1)]) (.str "k") ≠ []) :=
  ⟨rfl, key_in_dict_iff_find_key_in_dict_nonempty (.dict [(.str "k", .int 1)]) (.str "k") rfl⟩
/-- When the key does not occur along list/dict edges, the search finds
nothing. -/
theorem find_key_nil_of_not_occursLD (k : Value) :
    ∀ node : Value, occursViaListsAndDicts node k = false →
      find_key_in_dict node k = [] := by
  have hItems : ∀ (xs : List Value),
      (∀ x ∈ xs, occursViaListsAndDicts x k = false → find_key_in_dict x k = []) →
      occursLDItems xs k = false → findInItems xs k = [] := by
    intro xs h ho
    induction xs with
    | nil => rfl
    | cons a as_ ih =>
      simp only [occursLDItems, Bool.or_eq_false_iff] at ho
      simp only [findInItems, h a (by simp) ho.1,
        ih (fun x hx hox => h x (by simp [hx]) hox) ho.2, List.nil_append]
  have hVals : ∀ (es : List (Value × Value)),
      (∀ kv ∈ es, occursViaListsAndDicts kv.2 k = false → find_key_in_dict kv.2 k = []) →
      occursLDValues es k = false → findInValues es k = [] := by
    intro es h ho
    induction es with
    | nil => rfl
    | cons a as_ ih =>
      obtain ⟨k2, v⟩ := a
      simp only [occursLDValues, Bool.or_eq_false_iff] at ho
      simp only [findInValues, h (k2, v) (by simp) ho.1,
        ih (fun kv hkv hov => h kv (by simp [hkv]) hov) ho.2, List.nil_append]
  apply Value.inductionOn
    (fun node => occursViaListsAndDicts node k = false → find_key_in_dict node k = [])
  · intro s h; rfl
  · intro n h; rfl
  · intro b h; rfl
  · intro h; rfl
  · intro bs h; rfl
  · intro n h; rfl
  · intro n h; rfl
  · intro xs h ho
    simp only [occursViaListsAndDicts] at ho
    simp only [find_key_in_dict]
    exact hItems xs h ho
  · intro xs h ho; rfl
  · intro es h ho
    simp only [occursViaListsAndDicts, Bool.or_eq_false_iff] at ho
    simp only [find_key_in_dict, ho.1,
      hVals es (fun kv hkv => (h kv hkv).2) ho.2]
    simp
  · intro fs h ho; rfl

/-- Claim C10: the key search descends only into list and dict nodes;
when the key occurs in the structure but only inside tuples (or other
non-list sequences), `find_key_in_dict` yields no occurrence and
`key_in_dict` returns false. -/
theorem find_key_in_dict_ignores_tuples (node k : Value)
    (hk : Value.hashable k = true)
    (hocc : occursInStructure node k = true)
    (hld : occursViaListsAndDicts node k = false) :
    find_key_in_dict node k = [] ∧ key_in_dict node k = false := by
  have hfind := find_key_nil_of_not_occursLD k node hld
  refine ⟨hfind, ?_⟩
  unfold key_in_dict
  rw [hfind]
  rfl

/-- Witness for C10: the key `"k"` occurs only inside a tuple nested in
a list, and the search misses it. -/
theorem find_key_in_dict_ignores_tuples_witness :
    Value.hashable (.str "k") = true ∧
    occursInStructure (.list [.tuple [.dict [(.str "k", .int 1)]]]) (.str "k") = true ∧
    occursViaListsAndDicts (.list [.tuple [.dict [(.str "k", .int 1)]]]) (.str "k") = false ∧
    (find_key_in_dict (.list [.tuple [.dict [(.str "k", .int 1)]]]) (.str "k") = [] ∧
      key_in_dict (.list [.tuple [.dict [(.str "k", .int 1)]]]) (.str "k") = false) :=
  ⟨rfl, rfl, rfl,
    find_key_in_dict_ignores_tuples (.list [.tuple [.dict [(.str "k", .int 1)]]])
      (.str "k") rfl rfl rfl⟩
/-- Re-validating already-validated dict entries succeeds and is the
identity. -/
theorem rpEntries_idem (es : List (Value × Value))
    (ihm : ∀ kv ∈ es, ∀ r, recursive_primitive kv.2 = .ok r → recursive_primitive r = .ok r) :
    ∀ es2, rpEntries es = .ok es2 → rpEntries es2 = .ok es2 := by
  induction es with
  | nil =>
    intro es2 h
    simp only [rpEntries] at h
    cases h
    rfl
  | cons a as_ ih =>
    obtain ⟨k, v⟩ := a
    intro es2 h
    simp only [rpEntries] at h
    cases hv : recursive_primitive v with
    | error e => rw [hv] at h; simp at h
    | ok v2 =>
      rw [hv] at h
      cases hr : rpEntries as_ with
      | error e => rw [hr] at h; simp at h
      | ok rest2 =>
        rw [hr] at h
        simp at h
        subst h
        simp only [rpEntries]
        rw [ihm (k, v) (by simp) v2 hv,
          ih (fun kv hkv => ihm kv (by simp [hkv])) rest2 hr]
  
/-- Re-validating already-validated list elements succeeds and is the
identity. -/
theorem rpList_idem (xs : List Value)
    (ihm : ∀ x ∈ xs, ∀ r, recursive_primitive x = .ok r → recursive_primitive r = .ok r) :
    ∀ xs2, rpList xs = .ok xs2 → rpList xs2 = .ok xs2 := by
  induction xs with
  | nil =>
    intro xs2 h
    simp only [rpList] at h
    cases h
    rfl
  | cons a as_ ih =>
    intro xs2 h
    simp only [rpList] at h
    cases hv : recursive_primitive a with
    | error e => rw [hv] at h; simp at h
    | ok v2 =>
      rw [hv] at h
      cases hr : rpList as_ with
      | error e => rw [hr] at h; simp at h
      | ok rest2 =>
        rw [hr] at h
        simp at h
        subst h
        simp only [rpList]
        rw [ihm a (by simp) v2 hv,
          ih (fun x hx => ihm x (by simp [hx])) rest2 hr]

/-- Claim C8: `recursive_primitive` is idempotent on its own output:
whenever it succeeds, running it again on the result succeeds and
returns the result unchanged. -/
theorem recursive_primitive_idempotent :
    ∀ v r : Value, recursive_primitive v = .ok r → recursive_primitive r = .ok r := by
  apply Value.inductionOn
    (fun v => ∀ r, recursive_primitive v = .ok r → recursive_primitive r = .ok r)
  · intro s r h
    simp only [recursive_primitive] at h
    cases h
    rfl
  · intro n r h
    simp only [recursive_primitive] at h
    cases h
    rfl
  · intro b r h
    simp only [recursive_primitive] at h
    cases h
    rfl
  · intro r h
    simp only [recursive_primitive] at h
    cases h
    rfl
  · intro bs r h
    simp only [recursive_primitive, decodeAscii] at h
    split at h
    · simp [Except.map] at h
      subst h
      rfl
    · simp [Except.map] at h
  · intro n r h
    simp only [recursive_primitive] at h
    cases h
    rfl
  · intro n r h
    simp only [recursive_primitive] at h
    cases h
    rfl
  · intro xs hm r h
    simp only [recursive_primitive] at h
    cases hr : rpList xs with
    | error e => rw [hr] at h; simp [Except.map] at h
    | ok xs2 =>
      rw [hr] at h
      simp [Except.map] at h
      subst h
      simp only [recursive_primitive]
      rw [rpList_idem xs hm xs2 hr]
      rfl
  · intro xs hm r h
    simp only [recursive_primitive] at h
    cases hr : rpList xs with
    | error e => rw [hr] at h; simp [Except.map] at h
    | ok xs2 =>
      rw [hr] at h
      simp [Except.map] at h
      subst h
      simp only [recursive_primitive]
      rw [rpList_idem xs hm xs2 hr]
      rfl
  · intro es hm r h
    simp only [recursive_primitive] at h
    cases hr : rpEntries es with
    | error e => rw [hr] at h; simp [Except.map] at h
    | ok es2 =>
      rw [hr] at h
      simp [Except.map] at h
      subst h
      simp only [recursive_primitive]
      rw [rpEntries_idem es (fun kv hkv => (hm kv hkv).2) es2 hr]
      rfl
  · intro fs hm r h
    simp only [recursive_primitive] at h
    simp at h

/-- Witness for C8: a tuple normalizes to a list, and re-running the
validator on that list returns it unchanged. -/
theorem recursive_primitive_idempotent_witness :
    recursive_primitive (.tuple [.int 1, .bytes [104, 105]]) = .ok (.list [.int 1, .str "hi"]) ∧
    recursive_primitive (.list [.int 1, .str "hi"]) = .ok (.list [.int 1, .str "hi"]) :=
  ⟨rfl, recursive_primitive_idempotent (.tuple [.int 1, .bytes [104, 105]])
    (.list [.int 1, .str "hi"]) rfl⟩
/-- The normalized entry list of a mapping keeps every key unchanged
and validates exactly the values. -/
theorem rpEntries_keeps_keys (es : List (Value × Value)) :
    ∀ es2, rpEntries es = .ok es2 →
      es2.map Prod.fst = es.map Prod.fst ∧
      List.Forall₂ (fun kv kv2 : Value × Value =>
        recursive_primitive kv.2 = Except.ok kv2.2) es es2 := by
  induction es with
  | nil =>
    intro es2 h
    simp only [rpEntries] at h
    cases h
    simp
  | cons a as_ ih =>
    obtain ⟨k, v⟩ := a
    intro es2 h
    simp only [rpEntries] at h
    cases hv : recursive_primitive v with
    | error e => rw [hv] at h; simp at h
    | ok v2 =>
      rw [hv] at h
      cases hr : rpEntries as_ with
      | error e => rw [hr] at h; simp at h
      | ok rest2 =>
        rw [hr] at h
        simp at h
        subst h
        obtain ⟨h1, h2⟩ := ih rest2 hr
        exact ⟨by simp [h1], List.Forall₂.cons hv h2⟩

/-- Counterexample to claim C5: keys are not normalized — a byte-string
key stays a byte string instead of being decoded to text, and an
unsupported Bunch-typed key is not rejected. -/
theorem recursive_primitive_keeps_byte_and_custom_keys_cex :
    recursive_primitive (.dict [(.bytes [107], .int 1)])
      = .ok (.dict [(.bytes [107], .int 1)]) ∧
    recursive_primitive (.dict [(.bunch [], .int 1)])
      = .ok (.dict [(.bunch [], .int 1)]) :=
  ⟨rfl, rfl⟩

/-- Claim C5 (amended): on a mapping, `recursive_primitive` recursively
normalizes only the values; the keys pass through entirely unchanged
(the comprehension iterates `items()` and rebuilds each pair with the
original key). -/
theorem recursive_primitive_normalizes_only_values
    (es : List (Value × Value)) (r : Value)
    (h : recursive_primitive (.dict es) = .ok r) :
    ∃ es2, r = .dict es2 ∧ es2.map Prod.fst = es.map Prod.fst ∧
      List.Forall₂ (fun kv kv2 : Value × Value =>
        recursive_primitive kv.2 = Except.ok kv2.2) es es2 := by
  simp only [recursive_primitive] at h
  cases hre : rpEntries es with
  | error e => rw [hre] at h; simp [Except.map] at h
  | ok es2 =>
    rw [hre] at h
    simp [Except.map] at h
    obtain ⟨h1, h2⟩ := rpEntries_keeps_keys es es2 hre
    exact ⟨es2, h.symm, h1, h2⟩

/-- Witness for C5's amended theorem: the byte-string key survives
unchanged while the tuple value is normalized into a list. -/
theorem recursive_primitive_normalizes_only_values_witness :
    ∃ es2, Value.dict [(.bytes [107], .list [.int 1])] = .dict es2 ∧
      es2.map Prod.fst = [(Value.bytes [107], Value.tuple [.int 1])].map Prod.fst ∧
      List.Forall₂ (fun kv kv2 : Value × Value =>
        recursive_primitive kv.2 = Except.ok kv2.2)
        [(Value.bytes [107], Value.tuple [.int 1])] es2 :=
  recursive_primitive_normalizes_only_values
    [(Value.bytes [107], Value.tuple [.int 1])] (.dict [(.bytes [107], .list [.int 1])]) rfl
/-- When nothing matches, masking dict entries is the identity. -/
theorem maskEntries_id (keys : List Value) (es : List (Value × Value))
    (ihm : ∀ kv ∈ es, maskUntouched kv.2 keys = true →
      recursive_mask_values kv.2 keys = kv.2)
    (h : untouchedEntries es keys = true) : maskEntries es keys = es := by
  induction es with
  | nil => rfl
  | cons a as_ ih =>
    obtain ⟨k, v⟩ := a
    simp only [untouchedEntries, Bool.and_eq_true, Bool.not_eq_true'] at h
    obtain ⟨⟨h1, h2⟩, h3⟩ := h
    simp only [maskEntries, h1]
    rw [ihm (k, v) (by simp) h2, ih (fun kv hkv => ihm kv (by simp [hkv])) h3]
    simp

/-- When nothing matches, masking sequence items is the identity. -/
theorem maskList_id (keys : List Value) (xs : List Value)
    (ihm : ∀ x ∈ xs, maskUntouched x keys = true → recursive_mask_values x keys = x)
    (h : untouchedList xs keys = true) : maskList xs keys = xs := by
  induction xs with
  | nil => rfl
  | cons a as_ ih =>
    simp only [untouchedList, Bool.and_eq_true] at h
    simp only [maskList]
    rw [ihm a (by simp) h.1, ih (fun x hx => ihm x (by simp [hx])) h.2]

/-- When no PII key with truthy value occurs, the recursive mask is the
identity. -/
theorem recursive_mask_values_id (keys : List Value) :
    ∀ v : Value, maskUntouched v keys = true → recursive_mask_values v keys = v := by
  apply Value.inductionOn
    (fun v => maskUntouched v keys = true → recursive_mask_values v keys = v)
  · intro s h; rfl
  · intro n h; rfl
  · intro b h; rfl
  · intro h; rfl
  · intro bs h; rfl
  · intro n h; rfl
  · intro n h; rfl
  · intro xs hm h
    simp only [maskUntouched] at h
    simp only [recursive_mask_values]
    rw [maskList_id keys xs hm h]
  · intro xs hm h
    simp only [maskUntouched] at h
    simp only [recursive_mask_values]
    rw [maskList_id keys xs hm h]
  · intro es hm h
    simp only [maskUntouched] at h
    simp only [recursive_mask_values]
    rw [maskEntries_id keys es (fun kv hkv => (hm kv hkv).2) h]
  · intro fs hm h; rfl

/-- Claim C9: `safe_mask_values` operates on a deep copy and, with no
PII key matching a truthy value anywhere in the input, returns a value
equal to its input; the caller's structure is rebuilt, never mutated. -/
theorem safe_mask_values_preserves_input_without_matches
    (data : Value) (piiKeys : List Value)
    (h : maskUntouched data piiKeys = true) :
    safe_mask_values data piiKeys = data := by
  unfold safe_mask_values
  rw [deepcopy_eq data, recursive_mask_values_id piiKeys data h]

/-- Witness for C9 at a dict holding only a non-PII key. -/
theorem safe_mask_values_preserves_input_without_matches_witness :
    safe_mask_values (.dict [(.str "name", .str "Bob")]) [.str "ssn"]
      = .dict [(.str "name", .str "Bob")] :=
  safe_mask_values_preserves_input_without_matches
    (.dict [(.str "name", .str "Bob")]) [.str "ssn"] rfl
